import Mathlib

/-!
Shallow embedding of the transfer-learning pipeline of
`frontend/app/screens/HomeScreen.tsx` (client_side_ai_training).

The pipeline state consists of the imported training files with their
derived labels, the per-label counts, the preview list, the optional
trained head model (with its attached label index), the optional test
file and the optional prediction.  The operations embedded here are
`onAddFolder`, `onTrainHead`, `onPredictBtn` and `onClearAll`.

External collaborators (MobileNet embedding extraction, `tf.stack`,
`model.fit`, the browser file picker) are passed in as explicit
parameters or oracles; everything the repository's own code computes is
translated directly.
-/

namespace ClientSideAI

/-! ## JavaScript string primitives, modelled on the character list -/

/-- JavaScript code-unit comparison of two strings, as used by the default
`Array.prototype.sort()` comparator: lexicographic on the character
sequences. -/
def charListLe : List Char → List Char → Bool
  | [], _ => true
  | _ :: _, [] => false
  | a :: as, b :: bs =>
      if a = b then charListLe as bs
      else decide (a < b)

/-- `a <= b` for JavaScript's default string sort order. -/
def strLe (a b : String) : Bool := charListLe a.data b.data

/-- The sort order of `Array.prototype.sort()` as a binary relation. -/
def strLeR (a b : String) : Prop := strLe a b = true

instance : DecidableRel strLeR := fun a b =>
  inferInstanceAs (Decidable (strLe a b = true))

/-- `String.prototype.split(sep)` on the character list: splits at every
occurrence of `sep`, keeping empty chunks. -/
def splitChars (sep : Char) : List Char → List (List Char)
  | [] => [[]]
  | c :: rest =>
      let r := splitChars sep rest
      if c = sep then [] :: r
      else
        match r with
        | [] => [[c]]
        | g :: gs => (c :: g) :: gs

/-- `rel.split("/")` from the folder-import loop. -/
def splitOnSlash (s : String) : List String :=
  (splitChars '/' s.data).map (fun cs => String.mk cs)

/-- `a.startsWith(b)` on character lists. -/
def startsWithChars : List Char → List Char → Bool
  | _, [] => true
  | [], _ :: _ => false
  | a :: as, b :: bs => a = b && startsWithChars as bs

/-! ## Files and the label derivation of the folder import -/

/-- A `File` object as seen by `onAddFolder`: its `name`, its
`webkitRelativePath` (empty when the browser does not provide one), its
MIME `type`, and an opaque identifier standing for the image bytes. -/
structure FileEntry where
  name : String
  webkitRelativePath : String
  mimeType : String
  content : Nat
deriving DecidableEq

/-- `(f as any).webkitRelativePath || f.name`: the `||` falls back to the
file name when the relative path is the (falsy) empty string. -/
def relOf (f : FileEntry) : String :=
  if f.webkitRelativePath = "" then f.name else f.webkitRelativePath

/-- `f.type && f.type.startsWith("image/")` — with `type` a total string,
this is the `startsWith` test (the empty string never starts with
`"image/"`). -/
def isImage (f : FileEntry) : Bool :=
  startsWithChars f.mimeType.data "image/".data

/-- `rel.split("/").filter(Boolean)`: the path segments with empty
segments discarded (`Boolean("")` is `false`). -/
def pathParts (rel : String) : List String :=
  (splitOnSlash rel).filter (fun s => s ≠ "")

/-- `parts.length >= 2 ? parts[parts.length - 2] : "root"`: the label of
an imported file is the second-to-last path segment, or the sentinel
`"root"` when there is no parent directory segment. -/
def deriveLabel (rel : String) : String :=
  let parts := pathParts rel
  if 2 ≤ parts.length then parts.getD (parts.length - 2) "" else "root"

/-- An entry of the `trainFiles` state: the file together with the label
derived at import time.  (The object URL `uri` is an opaque handle to
the same file and carries no further information.) -/
structure TrainFile where
  file : FileEntry
  label : String
deriving DecidableEq

/-- An entry of the `trainPreviews` state: object URL (represented by the
file it refers to) plus label. -/
structure Preview where
  file : FileEntry
  label : String
deriving DecidableEq

/-! ## JavaScript `Record` objects as insertion-ordered association lists -/

/-- `m[k] = v` on a JavaScript object: overwrite in place when the key
exists, append otherwise. -/
def setKey {β : Type} : List (String × β) → String → β → List (String × β)
  | [], k, v => [(k, v)]
  | (k', v') :: rest, k, v =>
      if k' = k then (k, v) :: rest else (k', v') :: setKey rest k v

/-- `counts[label] = (counts[label] ?? 0) + 1`. -/
def bumpCount (m : List (String × Nat)) (k : String) : List (String × Nat) :=
  setKey m k ((List.lookup k m).getD 0 + 1)

/-- The count recorded for a label (`counts[label] ?? 0`). -/
def lookupCount (m : List (String × Nat)) (k : String) : Nat :=
  (List.lookup k m).getD 0

/-! ## The trained head and the pipeline state -/

/-- The trained head artifact: the `tf.LayersModel` with the label
mapping attached to it (`__label2idx`, `__idx2label`), together with its
input dimension.  The fitted weights live in the external runtime and
are represented by an opaque handle. -/
structure TrainedHead where
  featureDim : Nat
  idx2label : List String
  label2idx : List (String × Nat)
  params : Nat
deriving DecidableEq

/-- A prediction result: top label plus the confidences record. -/
structure Pred where
  label : String
  confidences : List (String × ℚ)
deriving DecidableEq

/-- The pipeline-relevant component state of `HomeScreen`. -/
structure AppState where
  trainFiles : List TrainFile
  labelCounts : List (String × Nat)
  trainPreviews : List Preview
  headModel : Option TrainedHead
  testFile : Option FileEntry
  pred : Option Pred
deriving DecidableEq

/-- The initial state of the screen: everything empty. -/
def initState : AppState :=
  { trainFiles := [], labelCounts := [], trainPreviews := [],
    headModel := none, testFile := none, pred := none }

/-! ## Folder import (`onAddFolder`) -/

/-- The train-file entry built for one accepted file of the batch. -/
def mkTrainFile (f : FileEntry) : TrainFile :=
  { file := f, label := deriveLabel (relOf f) }

/-- The preview entry built for one accepted file of the batch. -/
def mkPreview (f : FileEntry) : Preview :=
  { file := f, label := deriveLabel (relOf f) }

/-- `onAddFolder`: walk the batch, skip every file whose MIME type does
not start with `"image/"`, derive each kept file's label from its
relative path, and—when at least one image was found—append the new
train files, prepend the new previews (capped at 200) and install the
updated counts.  When no image was found the state is left unchanged. -/
def onAddFolder (s : AppState) (batch : List FileEntry) : AppState :=
  let imgs := batch.filter isImage
  let newTrain := imgs.map mkTrainFile
  let previews := imgs.map mkPreview
  let counts := newTrain.foldl (fun m t => bumpCount m t.label) s.labelCounts
  if newTrain.length = 0 then s
  else
    { s with
      trainFiles := s.trainFiles ++ newTrain,
      trainPreviews := (previews ++ s.trainPreviews).take 200,
      labelCounts := counts }

/-! ## Clear all (`onClearAll`) -/

/-- `onClearAll`: empties the train files, previews and counts, drops the
test file and prediction, disposes the head model and sets it to
`null`. -/
def onClearAll (_s : AppState) : AppState :=
  { trainFiles := [], trainPreviews := [], labelCounts := [],
    testFile := none, pred := none, headModel := none }

/-! ## Label index construction (`onTrainHead`, lines 211–218) -/

/-- `Array.from(new Set(xs))`: deduplication keeping the first occurrence
of every element, in insertion order. -/
def setDedup (l : List String) : List String :=
  l.foldl (fun acc x => if x ∈ acc then acc else acc ++ [x]) []

/-- `Array.from(new Set(labels)).sort()`: the distinct labels in
JavaScript's default sort order. -/
def buildLabelIndex (labels : List String) : List String :=
  List.insertionSort strLeR (setDedup labels)

/-- `labelSet.forEach((lab, idx) => label2idx[lab] = idx)`. -/
def mkLabel2idx (labelSet : List String) : List (String × Nat) :=
  labelSet.enum.foldl (fun m p => setKey m p.2 p.1) []

/-! ## Feature extraction and head training (`onTrainHead`) -/

/-- `tf.oneHot(idx, C)`: the length-`C` vector with a `1` at `idx`. -/
def oneHot (idx C : Nat) : List ℚ :=
  (List.range C).map (fun j => if j = idx then (1 : ℚ) else 0)

/-- The per-file extraction loop of `onTrainHead` (lines 228–255): each
file is decoded and run through the MobileNet embedding (the external
`extract` function, which may fail, e.g. on a decode error); the feature
vectors are collected in order.  `featureDim` is recorded from the
first vector (see `loopFeatureDim`); the loop itself performs no
dimension comparison on later vectors. -/
def extractFeatures (extract : FileEntry → Except String (List ℚ)) :
    List TrainFile → Except String (List (List ℚ))
  | [] => .ok []
  | t :: ts => do
      let v ← extract t.file
      let vs ← extractFeatures extract ts
      .ok (v :: vs)

/-- `featureDim` as recorded by the loop: the length of the first
extracted vector (`null` when there was none). -/
def loopFeatureDim (feats : List (List ℚ)) : Option Nat :=
  (feats.head?).map List.length

/-- The body of `onTrainHead` after the guards (lines 209–316): build the
label index and `label2idx`, extract all features, fail when no feature
dimension could be inferred, stack the features (the external
`tf.stack` rejects ragged inputs with a generic shape error) and fit
the head (`model.fit`, external — its outcome is supplied as the
`fit` oracle).  On success the label mapping is attached to the model,
yielding the trained-head artifact. -/
def trainBody (extract : FileEntry → Except String (List ℚ))
    (fit : List (List ℚ) → List (List ℚ) → Except String Nat)
    (files : List TrainFile) : Except String TrainedHead := do
  let labelSet := buildLabelIndex (files.map (fun t => t.label))
  let label2idx := mkLabel2idx labelSet
  let feats ← extractFeatures extract files
  let ys := files.map
    (fun t => oneHot ((List.lookup t.label label2idx).getD 0) labelSet.length)
  match loopFeatureDim feats with
  | none => .error "Could not infer feature dimension."
  | some featureDim =>
      if feats.all (fun f => f.length = featureDim) then
        match fit feats ys with
        | .error e => .error e
        | .ok params =>
            .ok { featureDim := featureDim, idx2label := labelSet,
                  label2idx := label2idx, params := params }
      else
        .error "tf.stack: all input tensors must have matching shapes"

/-- `onTrainHead`: guarded by base-model readiness and a non-empty train
set; then the prediction and the current head model are cleared
(lines 206–207) *before* the `try` block, the body runs, and only a
successful body installs a head; a failure is logged and leaves the
head cleared. -/
def onTrainHead (netReady : Bool)
    (extract : FileEntry → Except String (List ℚ))
    (fit : List (List ℚ) → List (List ℚ) → Except String Nat)
    (s : AppState) : AppState :=
  if netReady = false then s
  else if s.trainFiles.length = 0 then s
  else
    let s1 : AppState := { s with pred := none, headModel := none }
    match trainBody extract fit s.trainFiles with
    | .ok h => { s1 with headModel := some h }
    | .error _ => s1

/-! ## Prediction (`onPredictBtn`) -/

/-- The arg-max loop of `onPredictBtn` (lines 386–389): `bestIdx` starts
at `0` and moves to `i` only on a strictly larger probability
(`probs[i] > probs[bestIdx]`).  The loop counter is the number of
remaining iterations, so the recursion is structural. -/
def bestIdxGo (probs : List ℚ) : Nat → Nat → Nat → Nat
  | b, _, 0 => b
  | b, i, fuel + 1 =>
      bestIdxGo probs (if probs.getD b 0 < probs.getD i 0 then i else b)
        (i + 1) fuel

/-- `let bestIdx = 0; for (let i = 1; i < probs.length; i++)`. -/
def bestIdx (probs : List ℚ) : Nat :=
  bestIdxGo probs 0 1 (probs.length - 1)

/-- `labelSet.forEach((lab, idx) => confidences[lab] = probs[idx])`,
building the confidences record (called with equal lengths). -/
def buildConf : List (String × ℚ) → List String → List ℚ → List (String × ℚ)
  | m, [], _ => m
  | m, _, [] => m
  | m, lab :: ls, p :: ps => buildConf (setKey m lab p) ls ps

/-- The prediction logic after the forward pass (lines 370–392): read the
label index attached to the head (`|| []`), throw when it is empty or
its length disagrees with the probability vector, otherwise build the
confidences record and select the arg-max label. -/
def predictPost (labelSet : List String) (probs : List ℚ) :
    Except String Pred :=
  if labelSet.length = 0 ∨ probs.length ≠ labelSet.length then
    .error "Label mapping is inconsistent with predictions."
  else
    .ok { label := labelSet.getD (bestIdx probs) "",
          confidences := buildConf [] labelSet probs }

/-- `onPredictBtn`: guarded by base-model readiness, a trained head and a
selected test file; then (after `setPred(null)`) the test image is
embedded and run through the head — the resulting probability vector
is supplied by the external `probsOf` oracle — and `predictPost`
decides the outcome.  A failure leaves the prediction cleared. -/
def onPredictBtn (netReady : Bool)
    (probsOf : TrainedHead → FileEntry → List ℚ) (s : AppState) : AppState :=
  if netReady = false then s
  else
    match s.headModel, s.testFile with
    | none, _ => s
    | some _, none => s
    | some h, some tfi =>
        let s1 : AppState := { s with pred := none }
        match predictPost h.idx2label (probsOf h tfi) with
        | .ok p => { s1 with pred := some p }
        | .error _ => s1

/-! ## Operation sequences over the dataset store -/

/-- The dataset-store operations a user can interleave: folder imports
and "clear all". -/
inductive StoreOp where
  | addFolder (batch : List FileEntry)
  | clearAll
deriving DecidableEq

/-- Apply one dataset-store operation. -/
def applyOp (s : AppState) : StoreOp → AppState
  | .addFolder batch => onAddFolder s batch
  | .clearAll => onClearAll s

/-- Run a sequence of dataset-store operations. -/
def runOps (s : AppState) (ops : List StoreOp) : AppState :=
  ops.foldl applyOp s

/-- The number of currently held training examples carrying a label. -/
def labelCount (files : List TrainFile) (lab : String) : Nat :=
  List.countP (fun t => t.label == lab) files

/-- The label-count invariant: the count recorded for every label equals
the number of training examples currently held with that label. -/
def countsExact (s : AppState) : Prop :=
  ∀ lab, lookupCount s.labelCounts lab = labelCount s.trainFiles lab

/-! ## Properties of the sort order -/

theorem charListLe_total : ∀ as bs : List Char,
    charListLe as bs = true ∨ charListLe bs as = true := by
  intro as
  induction as with
  | nil => intro bs; left; rfl
  | cons a as ih =>
      intro bs
      cases bs with
      | nil => right; rfl
      | cons b bs =>
          by_cases hab : a = b
          · subst hab
            rcases ih bs with h | h
            · left; simpa [charListLe] using h
            · right; simpa [charListLe] using h
          · have hba : ¬ b = a := fun h => hab h.symm
            rcases lt_trichotomy a b with h | h | h
            · left; simp [charListLe, hab, h]
            · exact absurd h hab
            · right; simp [charListLe, hba, h]

theorem charListLe_trans : ∀ as bs cs : List Char,
    charListLe as bs = true → charListLe bs cs = true →
    charListLe as cs = true := by
  intro as
  induction as with
  | nil => intro bs cs _ _; rfl
  | cons a as ih =>
      intro bs cs h1 h2
      cases bs with
      | nil => simp [charListLe] at h1
      | cons b bs =>
          cases cs with
          | nil => simp [charListLe] at h2
          | cons c cs =>
              by_cases hab : a = b <;> by_cases hbc : b = c
              · subst hab; subst hbc
                simp only [charListLe, if_pos rfl] at h1 h2 ⊢
                exact ih _ _ h1 h2
              · subst hab
                simp only [charListLe, if_pos rfl] at h1
                simp only [charListLe, if_neg hbc, decide_eq_true_eq] at h2
                have hac : ¬ a = c := fun h => hbc h
                simp [charListLe, hac, h2]
              · subst hbc
                simp only [charListLe, if_neg hab, decide_eq_true_eq] at h1
                have hac : ¬ a = b := hab
                simp [charListLe, hac, h1]
              · simp only [charListLe, if_neg hab, decide_eq_true_eq] at h1
                simp only [charListLe, if_neg hbc, decide_eq_true_eq] at h2
                have hac : a < c := lt_trans h1 h2
                have hne : ¬ a = c := ne_of_lt hac
                simp [charListLe, hne, hac]

theorem charListLe_antisymm : ∀ as bs : List Char,
    charListLe as bs = true → charListLe bs as = true → as = bs := by
  intro as
  induction as with
  | nil =>
      intro bs _ h2
      cases bs with
      | nil => rfl
      | cons b bs => simp [charListLe] at h2
  | cons a as ih =>
      intro bs h1 h2
      cases bs with
      | nil => simp [charListLe] at h1
      | cons b bs =>
          by_cases hab : a = b
          · subst hab
            simp only [charListLe, if_pos rfl] at h1 h2
            rw [ih bs h1 h2]
          · have hba : ¬ b = a := fun h => hab h.symm
            simp only [charListLe, if_neg hab, decide_eq_true_eq] at h1
            simp only [charListLe, if_neg hba, decide_eq_true_eq] at h2
            exact absurd (lt_trans h1 h2) (lt_irrefl a)

instance : IsTotal String strLeR :=
  ⟨fun a b => charListLe_total a.data b.data⟩

instance : IsTrans String strLeR :=
  ⟨fun a b c h1 h2 => charListLe_trans a.data b.data c.data h1 h2⟩

instance : IsAntisymm String strLeR :=
  ⟨fun a b h1 h2 => String.ext (charListLe_antisymm a.data b.data h1 h2)⟩

/-! ## Properties of record updates -/

theorem lookup_setKey {β : Type} (m : List (String × β)) (k k' : String)
    (v : β) :
    List.lookup k' (setKey m k v) =
      if k' = k then some v else List.lookup k' m := by
  induction m with
  | nil =>
      by_cases h : k' = k
      · subst h; simp [setKey, List.lookup]
      · have hb : (k' == k) = false := beq_eq_false_iff_ne.mpr h
        simp [setKey, List.lookup, hb, h]
  | cons p rest ih =>
      obtain ⟨a, b⟩ := p
      by_cases hak : a = k
      · subst hak
        simp only [setKey, if_pos rfl]
        by_cases h : k' = a
        · subst h; simp [List.lookup]
        · have hb : (k' == a) = false := beq_eq_false_iff_ne.mpr h
          simp [List.lookup, hb, h]
      · simp only [setKey, if_neg hak]
        by_cases h : k' = a
        · have hkk : k' ≠ k := by rw [h]; exact hak
          have hbt : (k' == a) = true := beq_iff_eq.mpr h
          simp [List.lookup, hbt, hkk]
        · have hb : (k' == a) = false := beq_eq_false_iff_ne.mpr h
          simp [List.lookup, hb, ih]

theorem setKey_fresh {β : Type} :
    ∀ (m : List (String × β)) (k : String) (v : β),
    (∀ p ∈ m, p.1 ≠ k) → setKey m k v = m ++ [(k, v)] := by
  intro m
  induction m with
  | nil => intro k v _; rfl
  | cons p rest ih =>
      intro k v hfresh
      obtain ⟨a, b⟩ := p
      have ha : a ≠ k := hfresh (a, b) (by simp)
      simp only [setKey, if_neg ha, List.cons_append, List.cons.injEq, true_and]
      exact ih k v (fun q hq => hfresh q (by simp [hq]))

theorem lookupCount_bumpCount (m : List (String × Nat)) (k k' : String) :
    lookupCount (bumpCount m k) k' =
      if k' = k then lookupCount m k' + 1 else lookupCount m k' := by
  unfold bumpCount lookupCount
  rw [lookup_setKey]
  by_cases h : k' = k
  · subst h; simp
  · simp [h]

/-! ## Properties of `Array.from(new Set(...))` -/

theorem setDedup_go_mem :
    ∀ (l acc : List String) (x : String),
    (x ∈ l.foldl (fun acc y => if y ∈ acc then acc else acc ++ [y]) acc) ↔
      x ∈ acc ∨ x ∈ l := by
  intro l
  induction l with
  | nil => intro acc x; simp
  | cons y ys ih =>
      intro acc x
      simp only [List.foldl_cons]
      rw [ih]
      by_cases hy : y ∈ acc
      · simp only [if_pos hy, List.mem_cons]
        constructor
        · rintro (h | h)
          · exact Or.inl h
          · exact Or.inr (Or.inr h)
        · rintro (h | h | h)
          · exact Or.inl h
          · exact Or.inl (h ▸ hy)
          · exact Or.inr h
      · simp only [if_neg hy, List.mem_append, List.mem_singleton,
          List.mem_cons]
        tauto

theorem setDedup_go_nodup :
    ∀ (l acc : List String), acc.Nodup →
    (l.foldl (fun acc y => if y ∈ acc then acc else acc ++ [y]) acc).Nodup := by
  intro l
  induction l with
  | nil => intro acc h; simpa using h
  | cons y ys ih =>
      intro acc h
      simp only [List.foldl_cons]
      by_cases hy : y ∈ acc
      · simpa [if_pos hy] using ih acc h
      · refine ih _ ?_
        simp [List.nodup_append, h, List.disjoint_singleton, hy]

theorem mem_setDedup (l : List String) (x : String) :
    x ∈ setDedup l ↔ x ∈ l := by
  unfold setDedup
  rw [setDedup_go_mem]
  simp

theorem nodup_setDedup (l : List String) : (setDedup l).Nodup :=
  setDedup_go_nodup l [] (by simp)

/-! ## Properties of the label index -/

theorem sorted_buildLabelIndex (L : List String) :
    List.Sorted strLeR (buildLabelIndex L) :=
  List.sorted_insertionSort strLeR (setDedup L)

theorem perm_buildLabelIndex (L : List String) :
    (buildLabelIndex L).Perm (setDedup L) :=
  List.perm_insertionSort strLeR (setDedup L)

theorem nodup_buildLabelIndex (L : List String) :
    (buildLabelIndex L).Nodup :=
  (perm_buildLabelIndex L).symm.nodup (nodup_setDedup L)

theorem mem_buildLabelIndex (L : List String) (lab : String) :
    lab ∈ buildLabelIndex L ↔ lab ∈ L := by
  rw [(perm_buildLabelIndex L).mem_iff, mem_setDedup]

theorem buildLabelIndex_ext (L1 L2 : List String)
    (hmem : ∀ x, x ∈ L1 ↔ x ∈ L2) :
    buildLabelIndex L1 = buildLabelIndex L2 := by
  have p2 : (setDedup L1).Perm (setDedup L2) := by
    rw [List.perm_ext_iff_of_nodup (nodup_setDedup L1) (nodup_setDedup L2)]
    intro a
    rw [mem_setDedup, mem_setDedup]
    exact hmem a
  exact List.eq_of_perm_of_sorted
    (((perm_buildLabelIndex L1).trans p2).trans (perm_buildLabelIndex L2).symm)
    (sorted_buildLabelIndex L1) (sorted_buildLabelIndex L2)

theorem buildLabelIndex_ne_nil (L : List String) (hL : L ≠ []) :
    buildLabelIndex L ≠ [] := by
  obtain ⟨x, hx⟩ := List.exists_mem_of_ne_nil L hL
  exact List.ne_nil_of_mem ((mem_buildLabelIndex L x).mpr hx)

/-! ## Properties of `label2idx` -/

theorem foldl_setKey_fresh :
    ∀ (l : List (Nat × String)) (m : List (String × Nat)),
    (l.map Prod.snd).Nodup →
    (∀ p ∈ m, ∀ q ∈ l, p.1 ≠ q.2) →
    l.foldl (fun m p => setKey m p.2 p.1) m =
      m ++ l.map (fun p => (p.2, p.1)) := by
  intro l
  induction l with
  | nil => intro m _ _; simp
  | cons q qs ih =>
      intro m hnd hfresh
      have hq2 : q.2 ∉ qs.map Prod.snd := by
        have := hnd
        simp only [List.map_cons, List.nodup_cons] at this
        exact this.1
      simp only [List.foldl_cons]
      rw [setKey_fresh m q.2 q.1 (fun p hp => hfresh p hp q (by simp))]
      rw [ih (m ++ [(q.2, q.1)])]
      · simp
      · simp only [List.map_cons, List.nodup_cons] at hnd
        exact hnd.2
      · intro p hp q' hq'
        rcases List.mem_append.mp hp with hp | hp
        · exact hfresh p hp q' (by simp [hq'])
        · have hpq : p = (q.2, q.1) := by simpa using hp
          subst hpq
          intro hcontra
          have hmem : q'.2 ∈ qs.map Prod.snd := List.mem_map_of_mem Prod.snd hq'
          rw [← hcontra] at hmem
          exact hq2 hmem

theorem mkLabel2idx_eq_enum (ls : List String) (h : ls.Nodup) :
    mkLabel2idx ls = ls.enum.map (fun p => (p.2, p.1)) := by
  unfold mkLabel2idx
  rw [foldl_setKey_fresh ls.enum []]
  · simp
  · rw [List.enum_map_snd]; exact h
  · simp

theorem lookup_enumFrom_map :
    ∀ (ls : List String) (k i : Nat), ls.Nodup → i < ls.length →
    List.lookup (ls.getD i "")
      ((List.enumFrom k ls).map (fun p => (p.2, p.1))) = some (k + i) := by
  intro ls
  induction ls with
  | nil => intro k i _ hi; simp at hi
  | cons a as ih =>
      intro k i hnd hi
      cases i with
      | zero => simp [List.enumFrom, List.lookup]
      | succ n =>
          have hn : n < as.length := by simpa using hi
          have hmem : as.getD n "" ∈ as := by
            rw [List.getD_eq_getElem?_getD, List.getElem?_eq_getElem hn]
            exact List.getElem_mem hn
          have hne : (as.getD n "" == a) = false := by
            refine beq_eq_false_iff_ne.mpr ?_
            intro hcontra
            have : a ∈ as := hcontra ▸ hmem
            exact (List.nodup_cons.mp hnd).1 this
          simp only [List.enumFrom, List.map_cons, List.getD_cons_succ,
            List.lookup, hne]
          rw [ih (k + 1) n (List.nodup_cons.mp hnd).2 hn]
          congr 1
          omega

theorem lookup_mkLabel2idx (ls : List String) (h : ls.Nodup) (i : Nat)
    (hi : i < ls.length) :
    List.lookup (ls.getD i "") (mkLabel2idx ls) = some i := by
  rw [mkLabel2idx_eq_enum ls h, List.enum_eq_enumFrom]
  simpa using lookup_enumFrom_map ls 0 i h hi

/-! ## Properties of the arg-max loop -/

theorem bestIdxGo_spec (probs : List ℚ) :
    ∀ (fuel i b : Nat), fuel + i = probs.length → b < i →
    (∀ j, j < i → probs.getD j 0 ≤ probs.getD b 0) →
    (∀ j, j < b → probs.getD j 0 < probs.getD b 0) →
    bestIdxGo probs b i fuel < probs.length ∧
    (∀ j, j < probs.length →
      probs.getD j 0 ≤ probs.getD (bestIdxGo probs b i fuel) 0) ∧
    (∀ j, j < bestIdxGo probs b i fuel →
      probs.getD j 0 < probs.getD (bestIdxGo probs b i fuel) 0) := by
  intro fuel
  induction fuel with
  | zero =>
      intro i b hfi hbi hmax hstrict
      have hlen : i = probs.length := by omega
      subst hlen
      exact ⟨hbi, fun j hj => hmax j hj, hstrict⟩
  | succ fuel ih =>
      intro i b hfi hbi hmax hstrict
      simp only [bestIdxGo]
      by_cases hlt : probs.getD b 0 < probs.getD i 0
      · rw [if_pos hlt]
        refine ih (i + 1) i (by omega) (Nat.lt_succ_self i) ?_ ?_
        · intro j hj
          rcases Nat.lt_succ_iff_lt_or_eq.mp hj with hj | hj
          · exact le_trans (hmax j hj) (le_of_lt hlt)
          · subst hj; exact le_refl _
        · intro j hj
          exact lt_of_le_of_lt (hmax j hj) hlt
      · rw [if_neg hlt]
        refine ih (i + 1) b (by omega) (Nat.lt_succ_of_lt hbi)
          ?_ hstrict
        intro j hj
        rcases Nat.lt_succ_iff_lt_or_eq.mp hj with hj | hj
        · exact hmax j hj
        · subst hj; exact le_of_not_lt hlt

theorem bestIdx_spec (probs : List ℚ) (h : probs ≠ []) :
    bestIdx probs < probs.length ∧
    (∀ j, j < probs.length →
      probs.getD j 0 ≤ probs.getD (bestIdx probs) 0) ∧
    (∀ j, j < bestIdx probs →
      probs.getD j 0 < probs.getD (bestIdx probs) 0) := by
  have h0 : 0 < probs.length := List.length_pos.mpr h
  refine bestIdxGo_spec probs (probs.length - 1) 1 0 (by omega)
    Nat.zero_lt_one ?_ ?_
  · intro j hj
    have hj0 : j = 0 := by omega
    subst hj0
    exact le_refl _
  · intro j hj
    exact absurd hj (Nat.not_lt_zero j)

/-! ## Properties of the confidences record -/

theorem buildConf_eq_zip :
    ∀ (ls : List String) (ps : List ℚ) (m : List (String × ℚ)),
    ls.Nodup → (∀ p ∈ m, p.1 ∉ ls) →
    buildConf m ls ps = m ++ ls.zip ps := by
  intro ls
  induction ls with
  | nil => intro ps m _ _; simp [buildConf]
  | cons l ls ih =>
      intro ps m hnd hdisj
      cases ps with
      | nil => simp [buildConf]
      | cons p ps =>
          simp only [buildConf]
          rw [setKey_fresh m l p
            (fun q hq => by
              have := hdisj q hq
              simp only [List.mem_cons, not_or] at this
              exact this.1)]
          rw [ih ps (m ++ [(l, p)]) (List.nodup_cons.mp hnd).2 ?_]
          · simp [List.zip_cons_cons]
          · intro q hq
            rcases List.mem_append.mp hq with hq | hq
            · have := hdisj q hq
              simp only [List.mem_cons, not_or] at this
              exact this.2
            · have hql : q = (l, p) := by simpa using hq
              subst hql
              exact (List.nodup_cons.mp hnd).1

/-! ## Inversion lemmas for prediction and training -/

theorem predictPost_ok (ls : List String) (probs : List ℚ) (r : Pred)
    (h : predictPost ls probs = .ok r) :
    ls ≠ [] ∧ probs.length = ls.length ∧
    r = { label := ls.getD (bestIdx probs) "",
          confidences := buildConf [] ls probs } := by
  unfold predictPost at h
  split at h
  case isTrue hc => exact absurd h (by simp)
  case isFalse hc =>
      push_neg at hc
      refine ⟨?_, hc.2, ?_⟩
      · intro hnil
        exact hc.1 (by simp [hnil])
      · exact (Except.ok.inj h).symm

theorem predictPost_error_iff (ls : List String) (probs : List ℚ) :
    (∃ e, predictPost ls probs = .error e) ↔
      (ls.length = 0 ∨ probs.length ≠ ls.length) := by
  unfold predictPost
  split
  case isTrue hc =>
      exact iff_of_true ⟨"Label mapping is inconsistent with predictions.", rfl⟩ hc
  case isFalse hc =>
      exact iff_of_false (by simp) hc

theorem trainBody_ok (extract : FileEntry → Except String (List ℚ))
    (fit : List (List ℚ) → List (List ℚ) → Except String Nat)
    (files : List TrainFile) (h : TrainedHead)
    (hok : trainBody extract fit files = .ok h) :
    files ≠ [] ∧
    h.idx2label = buildLabelIndex (files.map (fun t => t.label)) := by
  have hne : files ≠ [] := by
    intro hnil
    subst hnil
    simp [trainBody, extractFeatures, Bind.bind, Except.bind,
      loopFeatureDim] at hok
  refine ⟨hne, ?_⟩
  unfold trainBody at hok
  cases hex : extractFeatures extract files with
  | error e =>
      rw [hex] at hok
      simp [Bind.bind, Except.bind] at hok
  | ok feats =>
      rw [hex] at hok
      simp only [Bind.bind, Except.bind] at hok
      split at hok
      · simp at hok
      · split at hok
        · split at hok
          · simp at hok
          · rw [← Except.ok.inj hok]
        · simp at hok

theorem trainBody_stack_error (extract : FileEntry → Except String (List ℚ))
    (fit : List (List ℚ) → List (List ℚ) → Except String Nat)
    (files : List TrainFile) (feats : List (List ℚ)) (D : Nat)
    (hex : extractFeatures extract files = .ok feats)
    (hD : loopFeatureDim feats = some D)
    (hbad : feats.all (fun f => f.length = D) = false) :
    trainBody extract fit files =
      .error "tf.stack: all input tensors must have matching shapes" := by
  unfold trainBody
  rw [hex]
  simp only [Bind.bind, Except.bind]
  rw [hD]
  simp [hbad]

/-! ## Frame lemmas for the folder import -/

theorem onAddFolder_trainFiles (s : AppState) (batch : List FileEntry) :
    (onAddFolder s batch).trainFiles =
      s.trainFiles ++ (batch.filter isImage).map mkTrainFile := by
  simp only [onAddFolder]
  split
  case isTrue hz =>
      have : (batch.filter isImage).map mkTrainFile = [] :=
        List.eq_nil_of_length_eq_zero hz
      rw [this, List.append_nil]
  case isFalse hz => rfl

theorem onAddFolder_headModel (s : AppState) (batch : List FileEntry) :
    (onAddFolder s batch).headModel = s.headModel := by
  simp only [onAddFolder]
  split <;> rfl

theorem onAddFolder_testFile (s : AppState) (batch : List FileEntry) :
    (onAddFolder s batch).testFile = s.testFile := by
  simp only [onAddFolder]
  split <;> rfl

theorem onAddFolder_labelCounts (s : AppState) (batch : List FileEntry) :
    (onAddFolder s batch).labelCounts =
      ((batch.filter isImage).map mkTrainFile).foldl
        (fun m t => bumpCount m t.label) s.labelCounts := by
  simp only [onAddFolder]
  split
  case isTrue hz =>
      have hnil : (batch.filter isImage).map mkTrainFile = [] :=
        List.eq_nil_of_length_eq_zero hz
      rw [hnil]
      rfl
  case isFalse hz => rfl

theorem onAddFolder_previews (s : AppState) (batch : List FileEntry)
    (h : batch.filter isImage ≠ []) :
    (onAddFolder s batch).trainPreviews =
      ((batch.filter isImage).map mkPreview ++ s.trainPreviews).take 200 := by
  have hlen : ¬(((batch.filter isImage).map mkTrainFile).length = 0) := by
    simp only [List.length_map, List.length_eq_zero]
    exact h
  simp only [onAddFolder]
  rw [if_neg hlen]

theorem onAddFolder_noImages (s : AppState) (batch : List FileEntry)
    (h : ∀ f ∈ batch, isImage f = false) : onAddFolder s batch = s := by
  have hfilter : batch.filter isImage = [] := by
    rw [List.filter_eq_nil_iff]
    intro f hf
    simp [h f hf]
  unfold onAddFolder
  rw [hfilter]
  simp

theorem foldl_onAddFolder_headModel (batches : List (List FileEntry)) :
    ∀ s : AppState, (batches.foldl onAddFolder s).headModel = s.headModel := by
  induction batches with
  | nil => intro s; rfl
  | cons b bs ih =>
      intro s
      simp only [List.foldl_cons]
      rw [ih, onAddFolder_headModel]

/-! ## The label-count invariant -/

theorem lookupCount_foldl_bump :
    ∀ (ts : List TrainFile) (m : List (String × Nat)) (lab : String),
    lookupCount (ts.foldl (fun m t => bumpCount m t.label) m) lab =
      lookupCount m lab + labelCount ts lab := by
  intro ts
  induction ts with
  | nil => intro m lab; simp [labelCount]
  | cons t ts ih =>
      intro m lab
      simp only [List.foldl_cons]
      rw [ih, lookupCount_bumpCount]
      simp only [labelCount, List.countP_cons]
      by_cases h : lab = t.label
      · have hb : (t.label == lab) = true := beq_iff_eq.mpr h.symm
        rw [if_pos h, hb]
        simp
        omega
      · have hb : (t.label == lab) = false :=
          beq_eq_false_iff_ne.mpr (fun e => h e.symm)
        rw [if_neg h, hb]
        simp

theorem countsExact_initState : countsExact initState := by
  intro lab
  rfl

theorem countsExact_onAddFolder (s : AppState) (batch : List FileEntry)
    (h : countsExact s) : countsExact (onAddFolder s batch) := by
  intro lab
  simp only [onAddFolder]
  split
  case isTrue hz => exact h lab
  case isFalse hz =>
      simp only
      rw [lookupCount_foldl_bump, h lab]
      simp only [labelCount, List.countP_append]

theorem countsExact_onClearAll (s : AppState) :
    countsExact (onClearAll s) := by
  intro lab
  rfl

theorem countsExact_runOps (ops : List StoreOp) :
    ∀ s : AppState, countsExact s → countsExact (runOps s ops) := by
  induction ops with
  | nil => intro s h; exact h
  | cons op ops ih =>
      intro s h
      cases op with
      | addFolder batch => exact ih _ (countsExact_onAddFolder s batch h)
      | clearAll => exact ih _ (countsExact_onClearAll s)

/-! ## The claims -/

/-- C4: for every set of label strings, building the Label Index sorts the
distinct labels lexicographically (in the code-unit order of
`Array.prototype.sort()`) and assigns them indices `0..C-1` in that
order via `label2idx`; the construction is deterministic and
idempotent — building from any list with the same members yields the
identical ordering and index assignment. -/
theorem claim_C4 (L L2 : List String) (hmem : ∀ x, x ∈ L2 ↔ x ∈ L) :
    List.Sorted strLeR (buildLabelIndex L) ∧
    (buildLabelIndex L).Nodup ∧
    (∀ lab, lab ∈ buildLabelIndex L ↔ lab ∈ L) ∧
    buildLabelIndex L2 = buildLabelIndex L ∧
    (∀ i, i < (buildLabelIndex L).length →
      List.lookup ((buildLabelIndex L).getD i "")
        (mkLabel2idx (buildLabelIndex L)) = some i) := by
  refine ⟨sorted_buildLabelIndex L, nodup_buildLabelIndex L,
    fun lab => mem_buildLabelIndex L lab, buildLabelIndex_ext L2 L hmem, ?_⟩
  intro i hi
  exact lookup_mkLabel2idx _ (nodup_buildLabelIndex L) i hi

/-- Witness for C4 at the concrete label lists `["dogs","cats","dogs"]`
and `["cats","dogs","cats"]`, which represent the same label set. -/
theorem claim_C4_witness :
    List.Sorted strLeR (buildLabelIndex ["dogs", "cats", "dogs"]) ∧
    (buildLabelIndex ["dogs", "cats", "dogs"]).Nodup ∧
    (∀ lab, lab ∈ buildLabelIndex ["dogs", "cats", "dogs"] ↔
      lab ∈ ["dogs", "cats", "dogs"]) ∧
    buildLabelIndex ["cats", "dogs", "cats"] =
      buildLabelIndex ["dogs", "cats", "dogs"] ∧
    (∀ i, i < (buildLabelIndex ["dogs", "cats", "dogs"]).length →
      List.lookup ((buildLabelIndex ["dogs", "cats", "dogs"]).getD i "")
        (mkLabel2idx (buildLabelIndex ["dogs", "cats", "dogs"])) = some i) :=
  claim_C4 ["dogs", "cats", "dogs"] ["cats", "dogs", "cats"]
    (by intro x; simp only [List.mem_cons, List.not_mem_nil, or_false]; tauto)

/-- C8: after every sequence of import and clear operations starting from
the initial state, the label-count mapping is exact — for every label
the recorded count equals the number of currently held training
examples carrying that label — and a sequence ending in "clear all"
leaves the empty count mapping. -/
theorem claim_C8 (ops : List StoreOp) :
    countsExact (runOps initState ops) ∧
    (runOps initState (ops ++ [StoreOp.clearAll])).labelCounts = [] := by
  refine ⟨countsExact_runOps ops initState countsExact_initState, ?_⟩
  rw [runOps, List.foldl_append]
  rfl

/-- C9: the label assigned to an imported file is the second-to-last
segment of its relative path after discarding empty segments — the
name of its parent directory — and the sentinel label `"root"` when
fewer than two segments remain. -/
theorem claim_C9 (rel : String) :
    (∀ (l : List String) (parent file : String),
      pathParts rel = l ++ [parent, file] → deriveLabel rel = parent) ∧
    ((pathParts rel).length < 2 → deriveLabel rel = "root") := by
  constructor
  · intro l parent file h
    simp only [deriveLabel, h]
    have hlen : 2 ≤ (l ++ [parent, file]).length := by
      simp [List.length_append]
    rw [if_pos hlen]
    have hidx : (l ++ [parent, file]).length - 2 = l.length := by
      simp [List.length_append]
    rw [hidx, List.getD_eq_getElem?_getD,
      List.getElem?_append_right (le_refl l.length)]
    simp
  · intro h
    simp only [deriveLabel]
    rw [if_neg (by omega)]

/-- Witness for C9: a file under `data/cats/` is labelled `"cats"`, and a
file sitting directly under the selected root is labelled `"root"`. -/
theorem claim_C9_witness :
    deriveLabel "data/cats/cat1.png" = "cats" ∧
    deriveLabel "lonely.png" = "root" :=
  ⟨(claim_C9 "data/cats/cat1.png").1 ["data"] "cats" "cat1.png" (by decide),
   (claim_C9 "lonely.png").2 (by decide)⟩

/-- C10: a folder import adds exactly the files whose MIME type starts
with `"image/"` — the new train files, the new label counts and (when
at least one image is present) the new previews are computed from the
image-typed files of the batch alone, so entries of any other type
contribute no training example, no count and no preview — and a batch
containing no image-typed file leaves the state exactly unchanged. -/
theorem claim_C10 (s : AppState) (batch : List FileEntry) :
    (onAddFolder s batch).trainFiles =
      s.trainFiles ++ (batch.filter isImage).map mkTrainFile ∧
    (onAddFolder s batch).labelCounts =
      ((batch.filter isImage).map mkTrainFile).foldl
        (fun m t => bumpCount m t.label) s.labelCounts ∧
    (batch.filter isImage ≠ [] →
      (onAddFolder s batch).trainPreviews =
        ((batch.filter isImage).map mkPreview ++ s.trainPreviews).take 200) ∧
    ((∀ f ∈ batch, isImage f = false) → onAddFolder s batch = s) :=
  ⟨onAddFolder_trainFiles s batch, onAddFolder_labelCounts s batch,
   onAddFolder_previews s batch, onAddFolder_noImages s batch⟩

/-- Witness for C10: a mixed batch (one dog image, one text file)
contributes previews for the image only, and a batch holding only a
text file changes nothing. -/
theorem claim_C10_witness :
    (onAddFolder
      { trainFiles := [⟨⟨"c.png", "data/cats/c.png", "image/png", 1⟩, "cats"⟩],
        labelCounts := [("cats", 1)],
        trainPreviews := [⟨⟨"c.png", "data/cats/c.png", "image/png", 1⟩, "cats"⟩],
        headModel := none, testFile := none, pred := none }
      [⟨"d.png", "data/dogs/d.png", "image/png", 2⟩,
       ⟨"notes.txt", "data/dogs/notes.txt", "text/plain", 9⟩]).trainPreviews =
      ((([⟨"d.png", "data/dogs/d.png", "image/png", 2⟩,
          ⟨"notes.txt", "data/dogs/notes.txt", "text/plain", 9⟩] :
            List FileEntry).filter isImage).map mkPreview ++
        ([⟨⟨"c.png", "data/cats/c.png", "image/png", 1⟩, "cats"⟩] :
          List Preview)).take 200 ∧
    onAddFolder
      { trainFiles := [⟨⟨"c.png", "data/cats/c.png", "image/png", 1⟩, "cats"⟩],
        labelCounts := [("cats", 1)],
        trainPreviews := [⟨⟨"c.png", "data/cats/c.png", "image/png", 1⟩, "cats"⟩],
        headModel := none, testFile := none, pred := none }
      [⟨"notes.txt", "data/cats/notes.txt", "text/plain", 9⟩] =
      { trainFiles := [⟨⟨"c.png", "data/cats/c.png", "image/png", 1⟩, "cats"⟩],
        labelCounts := [("cats", 1)],
        trainPreviews := [⟨⟨"c.png", "data/cats/c.png", "image/png", 1⟩, "cats"⟩],
        headModel := none, testFile := none, pred := none } :=
  ⟨(claim_C10
      { trainFiles := [⟨⟨"c.png", "data/cats/c.png", "image/png", 1⟩, "cats"⟩],
        labelCounts := [("cats", 1)],
        trainPreviews := [⟨⟨"c.png", "data/cats/c.png", "image/png", 1⟩, "cats"⟩],
        headModel := none, testFile := none, pred := none }
      [⟨"d.png", "data/dogs/d.png", "image/png", 2⟩,
       ⟨"notes.txt", "data/dogs/notes.txt", "text/plain", 9⟩]).2.2.1 (by decide),
   (claim_C10
      { trainFiles := [⟨⟨"c.png", "data/cats/c.png", "image/png", 1⟩, "cats"⟩],
        labelCounts := [("cats", 1)],
        trainPreviews := [⟨⟨"c.png", "data/cats/c.png", "image/png", 1⟩, "cats"⟩],
        headModel := none, testFile := none, pred := none }
      [⟨"notes.txt", "data/cats/notes.txt", "text/plain", 9⟩]).2.2.2 (by decide)⟩

/-- C5 counterexample: "clear all" does not leave an existing Trained
Head untouched — on a state holding a live head, `onClearAll` disposes
the head and sets it to `null`, so the head is not preserved as the
claim states. -/
theorem claim_C5_counterexample :
    ({ trainFiles := [⟨⟨"c.png", "data/cats/c.png", "image/png", 1⟩, "cats"⟩],
       labelCounts := [("cats", 1)], trainPreviews := [],
       headModel := some ⟨1, ["cats"], [("cats", 0)], 7⟩,
       testFile := none, pred := none } : AppState).headModel =
      some ⟨1, ["cats"], [("cats", 0)], 7⟩ ∧
    (onClearAll
      { trainFiles := [⟨⟨"c.png", "data/cats/c.png", "image/png", 1⟩, "cats"⟩],
        labelCounts := [("cats", 1)], trainPreviews := [],
        headModel := some ⟨1, ["cats"], [("cats", 0)], 7⟩,
        testFile := none, pred := none }).headModel ≠
      some ⟨1, ["cats"], [("cats", 0)], 7⟩ := by
  decide

/-- C5 amended: "clear all" empties the stored examples and the label
counts, and additionally clears the previews, the test image and the
prediction, and disposes and discards the existing Trained Head — the
head is not retained. -/
theorem claim_C5_amended (s : AppState) :
    (onClearAll s).trainFiles = [] ∧ (onClearAll s).labelCounts = [] ∧
    (onClearAll s).trainPreviews = [] ∧ (onClearAll s).testFile = none ∧
    (onClearAll s).pred = none ∧ (onClearAll s).headModel = none :=
  ⟨rfl, rfl, rfl, rfl, rfl, rfl⟩

/-- C1 counterexample: a training run that starts and then fails does not
leave the previously produced Trained Head as it was — `onTrainHead`
clears the head before the failable body runs, so after the failure the
head is `none` rather than the old head. -/
theorem claim_C1_counterexample :
    (∃ e, trainBody (fun _ => .error "decode failed") (fun _ _ => .ok 0)
      (AppState.trainFiles
        { trainFiles := [⟨⟨"c.png", "data/cats/c.png", "image/png", 1⟩, "cats"⟩],
          labelCounts := [("cats", 1)], trainPreviews := [],
          headModel := some ⟨1, ["cats"], [("cats", 0)], 7⟩,
          testFile := none, pred := none }) = .error e) ∧
    (onTrainHead true (fun _ => .error "decode failed") (fun _ _ => .ok 0)
      { trainFiles := [⟨⟨"c.png", "data/cats/c.png", "image/png", 1⟩, "cats"⟩],
        labelCounts := [("cats", 1)], trainPreviews := [],
        headModel := some ⟨1, ["cats"], [("cats", 0)], 7⟩,
        testFile := none, pred := none }).headModel ≠
      some ⟨1, ["cats"], [("cats", 0)], 7⟩ :=
  ⟨⟨"decode failed", by rfl⟩, by decide⟩

/-- C1 amended: a trainHead invocation that starts (passes the guards)
and then fails installs no head at all — the head model ends as `none`,
because `onTrainHead` discards the previous Trained Head as soon as the
run starts — while the dataset store (examples, counts, previews) is
left untouched. -/
theorem claim_C1_amended (extract : FileEntry → Except String (List ℚ))
    (fit : List (List ℚ) → List (List ℚ) → Except String Nat)
    (s : AppState) (e : String) (hne : s.trainFiles ≠ [])
    (hfail : trainBody extract fit s.trainFiles = .error e) :
    (onTrainHead true extract fit s).headModel = none ∧
    (onTrainHead true extract fit s).trainFiles = s.trainFiles ∧
    (onTrainHead true extract fit s).labelCounts = s.labelCounts ∧
    (onTrainHead true extract fit s).trainPreviews = s.trainPreviews := by
  have hlen : ¬(s.trainFiles.length = 0) := by
    simpa [List.length_eq_zero] using hne
  simp only [onTrainHead, if_neg (show ¬(true = false) by simp),
    if_neg hlen, hfail]
  simp

/-- Witness for the amended C1 at a concrete one-file dataset whose
extraction fails. -/
theorem claim_C1_witness :
    (onTrainHead true (fun _ => .error "boom") (fun _ _ => .ok 0)
      { trainFiles := [⟨⟨"c.png", "data/cats/c.png", "image/png", 1⟩, "cats"⟩],
        labelCounts := [("cats", 1)], trainPreviews := [],
        headModel := none, testFile := none, pred := none }).headModel = none ∧
    (onTrainHead true (fun _ => .error "boom") (fun _ _ => .ok 0)
      { trainFiles := [⟨⟨"c.png", "data/cats/c.png", "image/png", 1⟩, "cats"⟩],
        labelCounts := [("cats", 1)], trainPreviews := [],
        headModel := none, testFile := none, pred := none }).trainFiles =
      (AppState.trainFiles
      { trainFiles := [⟨⟨"c.png", "data/cats/c.png", "image/png", 1⟩, "cats"⟩],
        labelCounts := [("cats", 1)], trainPreviews := [],
        headModel := none, testFile := none, pred := none }) ∧
    (onTrainHead true (fun _ => .error "boom") (fun _ _ => .ok 0)
      { trainFiles := [⟨⟨"c.png", "data/cats/c.png", "image/png", 1⟩, "cats"⟩],
        labelCounts := [("cats", 1)], trainPreviews := [],
        headModel := none, testFile := none, pred := none }).labelCounts =
      [("cats", 1)] ∧
    (onTrainHead true (fun _ => .error "boom") (fun _ _ => .ok 0)
      { trainFiles := [⟨⟨"c.png", "data/cats/c.png", "image/png", 1⟩, "cats"⟩],
        labelCounts := [("cats", 1)], trainPreviews := [],
        headModel := none, testFile := none, pred := none }).trainPreviews =
      [] :=
  claim_C1_amended (fun _ => .error "boom") (fun _ _ => .ok 0)
    { trainFiles := [⟨⟨"c.png", "data/cats/c.png", "image/png", 1⟩, "cats"⟩],
      labelCounts := [("cats", 1)], trainPreviews := [],
      headModel := none, testFile := none, pred := none }
    "boom" (by decide) (by rfl)

theorem onPredictBtn_pred (probsOf : TrainedHead → FileEntry → List ℚ)
    (s : AppState) (h : TrainedHead) (tfi : FileEntry)
    (hh : s.headModel = some h) (ht : s.testFile = some tfi) :
    (onPredictBtn true probsOf s).pred =
      (predictPost h.idx2label (probsOf h tfi)).toOption := by
  simp only [onPredictBtn, hh, ht, if_neg (show ¬(true = false) by simp)]
  cases hp : predictPost h.idx2label (probsOf h tfi) with
  | ok p => simp [hp, Except.toOption]
  | error e => simp [hp, Except.toOption]

/-- C6: for every Trained Head produced by a successful training run,
predict fails with the label-mapping-inconsistent error exactly when
the probability vector produced by the forward pass has a length
different from the size of the head's Label Index; with equal lengths
the defensive check does not trigger. -/
theorem claim_C6 (extract : FileEntry → Except String (List ℚ))
    (fit : List (List ℚ) → List (List ℚ) → Except String Nat)
    (files : List TrainFile) (h : TrainedHead)
    (htrain : trainBody extract fit files = .ok h) (probs : List ℚ) :
    (∃ e, predictPost h.idx2label probs = .error e) ↔
      probs.length ≠ h.idx2label.length := by
  obtain ⟨hne, hidx⟩ := trainBody_ok extract fit files h htrain
  have hnil : h.idx2label ≠ [] := by
    rw [hidx]
    refine buildLabelIndex_ne_nil _ ?_
    intro hm
    exact hne (List.map_eq_nil_iff.mp hm)
  have hlen : h.idx2label.length ≠ 0 := by
    simpa [List.length_eq_zero] using hnil
  rw [predictPost_error_iff]
  constructor
  · rintro (hc | hc)
    · exact absurd hc hlen
    · exact hc
  · intro hc
    exact Or.inr hc

/-- Witness for C6: a head trained on one `"cats"` example has a
one-entry label index, and a two-entry probability vector makes the
defensive check fire. -/
theorem claim_C6_witness :
    ∃ e, predictPost
      (TrainedHead.idx2label ⟨1, ["cats"], [("cats", 0)], 5⟩)
      [(1 : ℚ), 0] = .error e :=
  (claim_C6 (fun _ => .ok [1]) (fun _ _ => .ok 5)
    [⟨⟨"c.png", "data/cats/c.png", "image/png", 1⟩, "cats"⟩]
    ⟨1, ["cats"], [("cats", 0)], 5⟩ (by rfl) [(1 : ℚ), 0]).mpr (by decide)

/-- C7: every successful predict call on a head produced by training
returns one confidence entry per label of the head's frozen Label
Index in order (and no others), and its top label sits at the arg-max
position of the probability vector, ties broken by the lowest index. -/
theorem claim_C7 (extract : FileEntry → Except String (List ℚ))
    (fit : List (List ℚ) → List (List ℚ) → Except String Nat)
    (files : List TrainFile) (h : TrainedHead)
    (htrain : trainBody extract fit files = .ok h)
    (probs : List ℚ) (r : Pred)
    (hok : predictPost h.idx2label probs = .ok r) :
    r.confidences = h.idx2label.zip probs ∧
    r.confidences.map Prod.fst = h.idx2label ∧
    r.label = h.idx2label.getD (bestIdx probs) "" ∧
    bestIdx probs < h.idx2label.length ∧
    (∀ j, j < probs.length →
      probs.getD j 0 ≤ probs.getD (bestIdx probs) 0) ∧
    (∀ j, j < bestIdx probs →
      probs.getD j 0 < probs.getD (bestIdx probs) 0) := by
  obtain ⟨hne0, hidx⟩ := trainBody_ok extract fit files h htrain
  have hnd : h.idx2label.Nodup := by
    rw [hidx]
    exact nodup_buildLabelIndex _
  obtain ⟨hnil, hlen, hr⟩ := predictPost_ok h.idx2label probs r hok
  have hpne : probs ≠ [] := by
    intro hp
    subst hp
    simp only [List.length_nil] at hlen
    exact hnil (List.length_eq_zero.mp hlen.symm)
  obtain ⟨hb1, hb2, hb3⟩ := bestIdx_spec probs hpne
  have hconf : buildConf [] h.idx2label probs = h.idx2label.zip probs :=
    buildConf_eq_zip h.idx2label probs [] hnd (by simp)
  subst hr
  refine ⟨hconf, ?_, rfl, ?_, hb2, hb3⟩
  · rw [hconf]
    exact List.map_fst_zip _ _ (le_of_eq hlen.symm)
  · rw [← hlen]
    exact hb1

/-- Witness for C7: a head trained on a `"cats"` and a `"dogs"` example,
predicted with the tied probability vector `[1, 1]`: one entry per
label in index order, and the tie resolves to `"cats"` (index 0). -/
theorem claim_C7_witness :
    (Pred.confidences ⟨"cats", [("cats", 1), ("dogs", 1)]⟩ =
      List.zip ["cats", "dogs"] [(1 : ℚ), 1]) ∧
    ((Pred.confidences ⟨"cats", [("cats", 1), ("dogs", 1)]⟩).map Prod.fst =
      ["cats", "dogs"]) ∧
    Pred.label ⟨"cats", [("cats", 1), ("dogs", 1)]⟩ =
      ["cats", "dogs"].getD (bestIdx [(1 : ℚ), 1]) "" ∧
    bestIdx [(1 : ℚ), 1] < (["cats", "dogs"] : List String).length ∧
    (∀ j, j < ([(1 : ℚ), 1] : List ℚ).length →
      [(1 : ℚ), 1].getD j 0 ≤ [(1 : ℚ), 1].getD (bestIdx [(1 : ℚ), 1]) 0) ∧
    (∀ j, j < bestIdx [(1 : ℚ), 1] →
      [(1 : ℚ), 1].getD j 0 < [(1 : ℚ), 1].getD (bestIdx [(1 : ℚ), 1]) 0) :=
  claim_C7 (fun _ => .ok [1]) (fun _ _ => .ok 5)
    [⟨⟨"c.png", "data/cats/c.png", "image/png", 1⟩, "cats"⟩,
     ⟨⟨"d.png", "data/dogs/d.png", "image/png", 2⟩, "dogs"⟩]
    ⟨1, ["cats", "dogs"], [("cats", 0), ("dogs", 1)], 5⟩ (by rfl)
    [(1 : ℚ), 1] ⟨"cats", [("cats", 1), ("dogs", 1)]⟩ (by rfl)

/-- C3: the Trained Head installed by a successful training run carries
the Label Index frozen from the dataset at training time; any sequence
of later folder imports leaves that head in place, and a predict call
resolves its probability positions against the head's frozen index,
independent of the current dataset's labels. -/
theorem claim_C3 (s0 : AppState)
    (extract : FileEntry → Except String (List ℚ))
    (fit : List (List ℚ) → List (List ℚ) → Except String Nat)
    (h : TrainedHead) (hne : s0.trainFiles ≠ [])
    (htrain : trainBody extract fit s0.trainFiles = .ok h)
    (batches : List (List FileEntry))
    (probsOf : TrainedHead → FileEntry → List ℚ) :
    (batches.foldl onAddFolder (onTrainHead true extract fit s0)).headModel =
      some h ∧
    h.idx2label = buildLabelIndex (s0.trainFiles.map (fun t => t.label)) ∧
    (∀ tfi,
      (batches.foldl onAddFolder (onTrainHead true extract fit s0)).testFile =
        some tfi →
      (onPredictBtn true probsOf
        (batches.foldl onAddFolder (onTrainHead true extract fit s0))).pred =
        (predictPost h.idx2label (probsOf h tfi)).toOption) := by
  have hlen : ¬(s0.trainFiles.length = 0) := by
    simpa [List.length_eq_zero] using hne
  have hhead : (onTrainHead true extract fit s0).headModel = some h := by
    simp only [onTrainHead, if_neg (show ¬(true = false) by simp),
      if_neg hlen, htrain]
  have h1 : (batches.foldl onAddFolder
      (onTrainHead true extract fit s0)).headModel = some h := by
    rw [foldl_onAddFolder_headModel]
    exact hhead
  refine ⟨h1, (trainBody_ok extract fit s0.trainFiles h htrain).2, ?_⟩
  intro tfi htf
  exact onPredictBtn_pred probsOf _ h tfi h1 htf

/-- Witness for C3: train on one `"cats"` example with a test file
selected, then import a `"dogs"` folder; the head survives and predict
still resolves against the frozen one-label index. -/
theorem claim_C3_witness :
    (([[⟨"d.png", "data/dogs/d.png", "image/png", 2⟩]].foldl onAddFolder
      (onTrainHead true (fun _ => .ok [1]) (fun _ _ => .ok 5)
        { trainFiles := [⟨⟨"c.png", "data/cats/c.png", "image/png", 1⟩, "cats"⟩],
          labelCounts := [("cats", 1)], trainPreviews := [],
          headModel := none,
          testFile := some ⟨"t.png", "", "image/png", 3⟩,
          pred := none })).headModel =
      some ⟨1, ["cats"], [("cats", 0)], 5⟩) ∧
    (TrainedHead.idx2label ⟨1, ["cats"], [("cats", 0)], 5⟩ =
      buildLabelIndex
        ((AppState.trainFiles
          { trainFiles := [⟨⟨"c.png", "data/cats/c.png", "image/png", 1⟩, "cats"⟩],
            labelCounts := [("cats", 1)], trainPreviews := [],
            headModel := none,
            testFile := some ⟨"t.png", "", "image/png", 3⟩,
            pred := none }).map (fun t => t.label))) ∧
    (∀ tfi,
      ([[⟨"d.png", "data/dogs/d.png", "image/png", 2⟩]].foldl onAddFolder
        (onTrainHead true (fun _ => .ok [1]) (fun _ _ => .ok 5)
          { trainFiles := [⟨⟨"c.png", "data/cats/c.png", "image/png", 1⟩, "cats"⟩],
            labelCounts := [("cats", 1)], trainPreviews := [],
            headModel := none,
            testFile := some ⟨"t.png", "", "image/png", 3⟩,
            pred := none })).testFile = some tfi →
      (onPredictBtn true (fun _ _ => [(1 : ℚ)])
        ([[⟨"d.png", "data/dogs/d.png", "image/png", 2⟩]].foldl onAddFolder
          (onTrainHead true (fun _ => .ok [1]) (fun _ _ => .ok 5)
            { trainFiles := [⟨⟨"c.png", "data/cats/c.png", "image/png", 1⟩, "cats"⟩],
              labelCounts := [("cats", 1)], trainPreviews := [],
              headModel := none,
              testFile := some ⟨"t.png", "", "image/png", 3⟩,
              pred := none }))).pred =
        (predictPost (TrainedHead.idx2label ⟨1, ["cats"], [("cats", 0)], 5⟩)
          ((fun _ _ => [(1 : ℚ)]) (⟨1, ["cats"], [("cats", 0)], 5⟩ : TrainedHead)
            tfi)).toOption) :=
  claim_C3
    { trainFiles := [⟨⟨"c.png", "data/cats/c.png", "image/png", 1⟩, "cats"⟩],
      labelCounts := [("cats", 1)], trainPreviews := [],
      headModel := none,
      testFile := some ⟨"t.png", "", "image/png", 3⟩,
      pred := none }
    (fun _ => .ok [1]) (fun _ _ => .ok 5)
    ⟨1, ["cats"], [("cats", 0)], 5⟩ (by decide) (by rfl)
    [[⟨"d.png", "data/dogs/d.png", "image/png", 2⟩]]
    (fun _ _ => [(1 : ℚ)])

/-- C2 counterexample: the per-file extraction loop of a training run
performs no dimension verification — with an extractor returning a
3-vector for the first file and a 4-vector for the second, the loop
completes successfully with both vectors (the recorded feature
dimension taken from the first vector is 3), instead of failing with a
feature-dimension mismatch at the second extraction as the claim
states. -/
theorem claim_C2_counterexample :
    extractFeatures
      (fun f => if f.content = 1 then .ok [(1 : ℚ), 2, 3]
                else .ok [(1 : ℚ), 2, 3, 4])
      [⟨⟨"a.png", "data/cats/a.png", "image/png", 1⟩, "cats"⟩,
       ⟨⟨"b.png", "data/dogs/b.png", "image/png", 2⟩, "dogs"⟩] =
      .ok [[(1 : ℚ), 2, 3], [(1 : ℚ), 2, 3, 4]] ∧
    loopFeatureDim [[(1 : ℚ), 2, 3], [(1 : ℚ), 2, 3, 4]] = some 3 ∧
    trainBody
      (fun f => if f.content = 1 then .ok [(1 : ℚ), 2, 3]
                else .ok [(1 : ℚ), 2, 3, 4])
      (fun _ _ => .ok 0)
      [⟨⟨"a.png", "data/cats/a.png", "image/png", 1⟩, "cats"⟩,
       ⟨⟨"b.png", "data/dogs/b.png", "image/png", 2⟩, "dogs"⟩] =
      .error "tf.stack: all input tensors must have matching shapes" :=
  ⟨by rfl, by rfl, by rfl⟩

/-- C2 amended: the feature dimension `D` is recorded from the first
extracted vector, but later extractions are never compared against it —
whenever every per-file extraction succeeds the loop succeeds,
regardless of dimensions — and a mismatch surfaces only afterwards as
the external tensor-stacking step's generic shape error, not as a
`FeatureDimensionMismatch` raised at the offending extraction. -/
theorem claim_C2_amended (extract : FileEntry → Except String (List ℚ))
    (fit : List (List ℚ) → List (List ℚ) → Except String Nat)
    (files : List TrainFile) (feats : List (List ℚ)) (D : Nat)
    (hex : extractFeatures extract files = .ok feats)
    (hD : loopFeatureDim feats = some D)
    (hbad : feats.all (fun f => f.length = D) = false) :
    trainBody extract fit files =
      .error "tf.stack: all input tensors must have matching shapes" :=
  trainBody_stack_error extract fit files feats D hex hD hbad

/-- Witness for the amended C2 at the concrete mismatched extraction
(3-vector then 4-vector). -/
theorem claim_C2_witness :
    trainBody
      (fun f => if f.content = 1 then .ok [(1 : ℚ), 2] else .ok [(1 : ℚ)])
      (fun _ _ => .ok 0)
      [⟨⟨"a.png", "data/cats/a.png", "image/png", 1⟩, "cats"⟩,
       ⟨⟨"b.png", "data/dogs/b.png", "image/png", 2⟩, "dogs"⟩] =
      .error "tf.stack: all input tensors must have matching shapes" :=
  claim_C2_amended
    (fun f => if f.content = 1 then .ok [(1 : ℚ), 2] else .ok [(1 : ℚ)])
    (fun _ _ => .ok 0)
    [⟨⟨"a.png", "data/cats/a.png", "image/png", 1⟩, "cats"⟩,
     ⟨⟨"b.png", "data/dogs/b.png", "image/png", 2⟩, "dogs"⟩]
    [[(1 : ℚ), 2], [(1 : ℚ)]] 2 (by rfl) (by rfl) (by rfl)

end ClientSideAI
